import Mathlib

/-!
# Entity-component query engine (`src/main.cpp`)

The program is a C++ template metaprogram.  The embedding treats a C++ type as a
value of `Ty`, a parameter pack as a list, and a template instantiation as a
function of these values.  An instantiation that the compiler rejects (the
program is ill-formed) is a result `Except.error`; a result `Except.ok` is what
the instantiated code computes when it runs.
-/

namespace Ecs

/-! ## Components (main.cpp 6-21) -/

/-- A C++ `float`, identified by its IEEE-754 binary32 bit pattern.  The program
only stores these values and hands them on; it computes nothing with them. -/
structure F32 where
  bits : Nat
deriving DecidableEq, Repr, Inhabited

/-- Component `struct Position { float x, y; }`. -/
structure Position where
  x : F32
  y : F32
deriving DecidableEq, Repr, Inhabited

/-- Component `struct Velocity { float dx, dy; }`. -/
structure Velocity where
  dx : F32
  dy : F32
deriving DecidableEq, Repr, Inhabited

/-- Component `struct Npc {}`: a tag type without fields. -/
structure Npc where
deriving DecidableEq, Repr, Inhabited

/-- Component `struct Health { int hp; }`. -/
structure Health where
  hp : Int
deriving DecidableEq, Repr, Inhabited

/-- The identity of a C++ type, as `std::is_same` sees it: the four component
structs, and `Other id` for any other type (`int`, a struct the program does not
declare, ...). -/
inductive Ty where
  | Position
  | Velocity
  | Npc
  | Health
  | Other (id : Nat)
deriving DecidableEq, Repr

/-- The objects of a type.  What an object of a type outside the program
holds is of no concern here. -/
def Obj : Ty → Type
  | .Position => Position
  | .Velocity => Velocity
  | .Npc => Npc
  | .Health => Health
  | .Other _ => Unit

/-- An object together with its type. -/
abbrev Value := (T : Ty) × Obj T

/-- An object of `std::tuple<Us...>`: one object per type of the pack, in order. -/
def Tuple : List Ty → Type
  | [] => Unit
  | U :: Us => Obj U × Tuple Us

/-- A reference `T&` to an element of a `std::tuple<Us...>` object: the position
of the element in the tuple.  Which tuple object it points into is known to the
code that obtained it. -/
abbrev Ref (Us : List Ty) := Fin Us.length

/-- Reading through a reference. -/
def Tuple.read : {Us : List Ty} → Tuple Us → Ref Us → Value
  | [], _, r => r.elim0
  | U :: _, (a, _), ⟨0, _⟩ => ⟨U, a⟩
  | _ :: _, (_, t), ⟨i + 1, h⟩ => Tuple.read t ⟨i, Nat.lt_of_succ_lt_succ h⟩

/-- Writing an object through a reference to an element of type `T`.  A reference
`T&` takes objects of `T` only, so with any other element type nothing is
stored. -/
def Tuple.write : {Us : List Ty} → Tuple Us → Ref Us → Value → Tuple Us
  | [], t, _, _ => t
  | U :: _, (a, t), ⟨0, _⟩, ⟨T, v⟩ => if h : T = U then (h ▸ v, t) else (a, t)
  | _ :: _, (a, t), ⟨i + 1, h⟩, v => (a, Tuple.write t ⟨i, Nat.lt_of_succ_lt_succ h⟩ v)

/-- The parameter pack of `Entity::components`. -/
abbrev EntityTypes : List Ty := [.Position, .Velocity, .Npc, .Health]

/-- Entity `struct Entity { std::tuple<Position, Velocity, Npc, Health> components; }`
(main.cpp 24-27). -/
structure Entity where
  components : Tuple EntityTypes

/-! ## Filters (main.cpp 29-40) -/

/-- A filter descriptor, a class with a nested member `type`: `With<T>`,
`Without<T>`, or another class `Other id` whose `type` is `T`.  (A class
without a member `type` cannot be passed to `matches_filter`: naming
`Filter::type` is ill-formed.) -/
inductive Filter where
  | With (T : Ty)
  | Without (T : Ty)
  | Other (id : Nat) (T : Ty)
deriving DecidableEq, Repr

/-- The nested member `Filter::type`. -/
def Filter.type : Filter → Ty
  | .With T => T
  | .Without T => T
  | .Other _ T => T

/-! ## Type traits (main.cpp 42-60) -/

/-- Trait `std::is_same<T, U>::value`. -/
def is_same {α : Type} [DecidableEq α] (T U : α) : Bool := decide (T = U)

/-- Trait `std::disjunction<Bs...>::value`: the first true member, false for the
empty pack. -/
def disjunction : List Bool → Bool
  | [] => false
  | B :: Bs => if B then true else disjunction Bs

/-- Trait `is_in_tuple<T, std::tuple<Us...>>`, that is
`std::disjunction<std::is_same<T, Us>...>` (main.cpp 43-49). -/
def is_in_tuple (T : Ty) (Us : List Ty) : Bool :=
  disjunction (Us.map (fun U => is_same T U))

/-- The second template argument of `Query`, or the first: a single type or a
`std::tuple` of types. -/
inductive Param (α : Type) where
  | type (T : α)
  | tuple (Ts : List α)
deriving DecidableEq, Repr

/-- Trait `is_tuple<T>` (main.cpp 52-60). -/
def is_tuple {α : Type} : Param α → Bool
  | .type _ => false
  | .tuple _ => true

/-- The pack `std::make_index_sequence<n>`: the indices `0, ..., n-1`. -/
def make_index_sequence : (n : Nat) → List (Fin n)
  | 0 => []
  | n + 1 => 0 :: (make_index_sequence n).map Fin.succ

/-- The type `std::tuple_element_t<I, Tuple>`. -/
def tuple_element {α : Type} (Tuple : List α) (I : Fin Tuple.length) : α := Tuple.get I

/-! ## Filter evaluation (main.cpp 69-81) -/

/-- Function `matches_filter<Filter>(components)`.  `Components`, here `Us`, is
deduced from the argument; the argument's value is not read. -/
def matches_filter (F : Filter) {Us : List Ty} (_components : Tuple Us) : Bool :=
  if is_same F (.With F.type) then
    is_in_tuple F.type Us
  else if is_same F (.Without F.type) then
    !is_in_tuple F.type Us
  else
    true

/-- Fold `(Bs && ...)`: the unary right fold of `&&` over a pack, `true` for the
empty pack.  `&&` evaluates its right operand only when the left one is true. -/
def fold_and : List Bool → Bool
  | [] => true
  | [B] => B
  | B :: Bs => B && fold_and Bs

/-! ## Projection (main.cpp 83-101) -/

/-- The reason an instantiation is rejected: `std::get<T>` on a tuple in which
`T` does not occur exactly once. -/
inductive BindError where
  | not_exactly_once (T : Ty)
deriving DecidableEq, Repr

/-- The position of the first element of type `T` in the pack `Us`. -/
def find_index (T : Ty) : (Us : List Ty) → Option (Ref Us)
  | [] => none
  | U :: Us => if U = T then some ⟨0, Nat.succ_pos _⟩ else (find_index T Us).map Fin.succ

/-- Library function `std::get<T>(t)` on a `std::tuple<Us...>&`: a reference to
the element of type `T`.  The call is ill-formed unless `T` occurs exactly once
in `Us`.  The result depends on the tuple's type only. -/
def std_get (T : Ty) {Us : List Ty} (_t : Tuple Us) : Except BindError (Ref Us) :=
  if Us.count T = 1 then
    match find_index T Us with
    | some r => .ok r
    | none => .error (.not_exactly_once T)
  else
    .error (.not_exactly_once T)

/-- Library function `std::tie(es...)`: the tuple of the references `es...`, in
order; ill-formed when one of the operands is. -/
def std_tie {ε α : Type} : List (Except ε α) → Except ε (List α)
  | [] => .ok []
  | .error err :: _ => .error err
  | .ok r :: es =>
    match std_tie es with
    | .error err => .error err
    | .ok rs => .ok (r :: rs)

/-- Function `get_component<T>(components)` (main.cpp 84-88). -/
def get_component (T : Ty) {Us : List Ty} (components : Tuple Us) : Except BindError (Ref Us) :=
  std_get T components

/-- Function `get_components_impl<Tuple>(components, std::index_sequence<Is...>)`
(main.cpp 91-95); `Ts` is the pack of `Tuple`. -/
def get_components_impl (Ts : List Ty) {Us : List Ty} (components : Tuple Us)
    (Is : List (Fin Ts.length)) : Except BindError (List (Ref Us)) :=
  std_tie (Is.map (fun I => get_component (tuple_element Ts I) components))

/-- Function `get_components<Tuple>(components)` (main.cpp 97-101). -/
def get_components (Ts : List Ty) {Us : List Ty} (components : Tuple Us) :
    Except BindError (List (Ref Us)) :=
  get_components_impl Ts components (make_index_sequence Ts.length)

/-! ## Query (main.cpp 103-157) -/

/-- An instance of the class template `Query<TData, TFilter>`.  Its member
`entities` is a reference to the caller's vector; the vector itself is the state
`execute` runs on. -/
structure Query where
  TData : Param Ty
  TFilter : Param Filter
deriving DecidableEq, Repr

/-- The constructor `Query(std::vector<Entity>& entities)` of `Query<TData, TFilter>`
(main.cpp 108): it binds the reference and looks at neither template argument.
Instantiating the class does not instantiate the member template `execute`. -/
def Query.construct (TData : Param Ty) (TFilter : Param Filter) (_entities : List Entity) :
    Except BindError Query :=
  .ok { TData := TData, TFilter := TFilter }

/-- Function `matches_filters_from_tuple_impl<Tuple>(components, std::index_sequence<Is...>)`
(main.cpp 146-150); `Fs` is the pack of `Tuple`. -/
def matches_filters_from_tuple_impl (Fs : List Filter) {Us : List Ty} (components : Tuple Us)
    (Is : List (Fin Fs.length)) : Bool :=
  fold_and (Is.map (fun I => matches_filter (tuple_element Fs I) components))

/-- Function `matches_filters_from_tuple<Tuple>(components)` (main.cpp 152-156). -/
def matches_filters_from_tuple (Fs : List Filter) {Us : List Ty} (components : Tuple Us) : Bool :=
  matches_filters_from_tuple_impl Fs components (make_index_sequence Fs.length)

/-- Function `matches_filters_impl<Filters>(components)` (main.cpp 133-144); the
constructor of `Filters` is what `is_tuple<Filters>` tests. -/
def matches_filters_impl (Filters : Param Filter) {Us : List Ty} (components : Tuple Us) : Bool :=
  match Filters with
  | .tuple Fs => matches_filters_from_tuple Fs components
  | .type F => matches_filter F components

/-- The callable passed to `execute`.  It is called with references into the
components of the entity being visited, and is described by what a call does:
from the references, the tuple they point into and the state `σ` of whatever else
the callable reaches (its captures, the output stream), the tuple and that state
after the call. -/
abbrev Handler (σ : Type) := List (Ref EntityTypes) → Tuple EntityTypes → σ → Tuple EntityTypes × σ

/-- The arguments of the handler call in `execute` (main.cpp 117-124): with a
tuple `TData` the references `get_components<TData>` ties together, handed on
by `std::apply`; otherwise the one reference `get_component<TData>` returns. -/
def Query.project (q : Query) {Us : List Ty} (components : Tuple Us) :
    Except BindError (List (Ref Us)) :=
  match q.TData with
  | .tuple Ts => get_components Ts components
  | .type T =>
    match get_component T components with
    | .error err => .error err
    | .ok r => .ok [r]

/-- The body of the loop of `execute` (main.cpp 115-125) for one entity.  The
handler works on the entity in place (`auto& entity`). -/
def Query.visit {σ : Type} (q : Query) (lambda : Handler σ) (entity : Entity) (s : σ) :
    Except BindError (Entity × σ) :=
  if matches_filters_impl q.TFilter entity.components then
    match q.project entity.components with
    | .error err => .error err
    | .ok refs => .ok (⟨(lambda refs entity.components s).1⟩, (lambda refs entity.components s).2)
  else
    .ok (entity, s)

/-- The loop `for (auto& entity : entities)` of `execute` (main.cpp 113-126). -/
def Query.loop {σ : Type} (q : Query) (lambda : Handler σ) :
    List Entity → σ → Except BindError (List Entity × σ)
  | [], s => .ok ([], s)
  | entity :: rest, s =>
    match q.visit lambda entity s with
    | .error err => .error err
    | .ok r =>
      match Query.loop q lambda rest r.2 with
      | .error err => .error err
      | .ok rs => .ok (r.1 :: rs.1, rs.2)

/-- The object a type is initialised with when nothing is given. -/
def Obj.init : (T : Ty) → Obj T
  | .Position => (default : Position)
  | .Velocity => (default : Velocity)
  | .Npc => (default : Npc)
  | .Health => (default : Health)
  | .Other _ => ()

/-- An operand of type `std::tuple<Us...>` for an instantiation that reads no
value (`std::declval`). -/
def declval : (Us : List Ty) → Tuple Us
  | [] => ()
  | U :: Us => (Obj.init U, declval Us)

/-- Member `Query<TData, TFilter>::execute(lambda)` (main.cpp 110-127), on the
vector the query refers to.  Templates are instantiated when the program is
compiled: the handler call in the loop body is instantiated for the type of
`Entity::components` whether or not the loop ever reaches it, and a program in
which that is ill-formed does not run at all. -/
def Query.execute {σ : Type} (q : Query) (entities : List Entity) (lambda : Handler σ) (s : σ) :
    Except BindError (List Entity × σ) :=
  match q.project (declval EntityTypes) with
  | .error err => .error err
  | .ok _ => q.loop lambda entities s

/-- A handler that also keeps a record of its calls: the objects its arguments
refer to at the time of each call, in call order. -/
def traced {σ : Type} (lambda : Handler σ) : Handler (σ × List (List Value)) :=
  fun refs components s =>
    ((lambda refs components s.1).1,
     ((lambda refs components s.1).2, s.2 ++ [refs.map components.read]))

/-- A handler that changes nothing. -/
def idle : Handler Unit := fun _ components s => (components, s)

/-! ## Reference points for the statements -/

/-- The types a template argument names: the type itself, or the types of the
tuple, in order. -/
def Param.names {α : Type} : Param α → List α
  | .type T => [T]
  | .tuple Ts => Ts

/-- The component of type `T` an entity stores, read off the declaration of
`Entity::components`: the first member is the `Position`, the second the
`Velocity`, the third the `Npc`, the fourth the `Health`; no other type is stored. -/
def Entity.component (e : Entity) : Ty → Option Value
  | .Position => some ⟨.Position, e.components.1⟩
  | .Velocity => some ⟨.Velocity, e.components.2.1⟩
  | .Npc => some ⟨.Npc, e.components.2.2.1⟩
  | .Health => some ⟨.Health, e.components.2.2.2.1⟩
  | .Other _ => none

/-- A handler that stores the object `v` through its first argument and does
nothing else. -/
def store_first (v : Value) : Handler Unit :=
  fun refs components s =>
    match refs with
    | [] => (components, s)
    | r :: _ => (components.write r v, s)

/-! ## The demonstration store (main.cpp 161-166) -/

/-- The `float` nearest to `n / 10`, for the literals of `main`: `tenths 1` is
`0.1f`, ..., `tenths 6` is `0.6f`, `tenths 10` is `1`, ..., `tenths 60` is `6`. -/
def F32.tenths : Nat → F32
  | 1 => ⟨0x3dcccccd⟩
  | 2 => ⟨0x3e4ccccd⟩
  | 3 => ⟨0x3e99999a⟩
  | 4 => ⟨0x3ecccccd⟩
  | 5 => ⟨0x3f000000⟩
  | 6 => ⟨0x3f19999a⟩
  | 10 => ⟨0x3f800000⟩
  | 20 => ⟨0x40000000⟩
  | 30 => ⟨0x40400000⟩
  | 40 => ⟨0x40800000⟩
  | 50 => ⟨0x40a00000⟩
  | 60 => ⟨0x40c00000⟩
  | _ => ⟨0⟩

/-- Entity `e1` of `main`. -/
def e1 : Entity := ⟨(⟨F32.tenths 10, F32.tenths 20⟩, ⟨F32.tenths 1, F32.tenths 2⟩, ⟨⟩, ⟨100⟩, ())⟩

/-- Entity `e2` of `main`. -/
def e2 : Entity := ⟨(⟨F32.tenths 30, F32.tenths 40⟩, ⟨F32.tenths 3, F32.tenths 4⟩, ⟨⟩, ⟨80⟩, ())⟩

/-- Entity `e3` of `main`. -/
def e3 : Entity := ⟨(⟨F32.tenths 50, F32.tenths 60⟩, ⟨F32.tenths 5, F32.tenths 6⟩, ⟨⟩, ⟨60⟩, ())⟩

/-- The vector `entities` of `main`. -/
def main_entities : List Entity := [e1, e2, e3]


/-! ## The demonstration query (main.cpp 168-178) -/

/-- The alias `using TData = std::tuple<Position, Velocity>` of `main`. -/
def main_TData : Param Ty := .tuple [.Position, .Velocity]

/-- The alias `using TFilter = std::tuple<With<Position>>` of `main`. -/
def main_TFilter : Param Filter := .tuple [.With .Position]

/-- The object `Query<TData, TFilter> query(entities)` of `main`. -/
def main_query : Query := { TData := main_TData, TFilter := main_TFilter }

/-- The filter the comment above the aliases announces (main.cpp 168):
"Query with filter: With<Position> and Without<Npc>". -/
def main_comment_TFilter : Param Filter := .tuple [.With .Position, .Without .Npc]

/-- The lambda `main` passes to `execute`: it prints one line, made of `pos.x`,
`pos.y`, `vel.dx` and `vel.dy`, and changes nothing.  The output stream is the
list of the lines printed so far, a line being its four numbers. -/
def main_lambda : Handler (List (F32 × F32 × F32 × F32)) :=
  fun refs components out =>
    match refs.map components.read with
    | [⟨.Position, pos⟩, ⟨.Velocity, vel⟩] =>
      (components, out ++ [((show Position from pos).x, (show Position from pos).y,
        (show Velocity from vel).dx, (show Velocity from vel).dy)])
    | _ => (components, out)

/-! ## Packs and folds -/

theorem map_make_index_sequence {α β : Type} (f : α → β) (l : List α) :
    (make_index_sequence l.length).map (fun I => f (tuple_element l I)) = l.map f := by
  induction l with
  | nil => rfl
  | cons a l ih =>
    have step : (make_index_sequence (a :: l).length).map (fun I => f (tuple_element (a :: l) I))
        = f a :: (make_index_sequence l.length).map (fun I => f (tuple_element l I)) := by
      show ((0 : Fin (l.length + 1)) :: (make_index_sequence l.length).map Fin.succ).map
        (fun I => f (tuple_element (a :: l) I)) = _
      rw [List.map_cons, List.map_map]
      rfl
    rw [step, ih, List.map_cons]

theorem disjunction_eq_true_iff (Bs : List Bool) : disjunction Bs = true ↔ true ∈ Bs := by
  induction Bs with
  | nil => simp [disjunction]
  | cons B Bs ih => cases B <;> simp [disjunction, ih]

theorem is_in_tuple_iff (T : Ty) (Us : List Ty) : is_in_tuple T Us = true ↔ T ∈ Us := by
  simp [is_in_tuple, disjunction_eq_true_iff, is_same]

theorem fold_and_eq_all (Bs : List Bool) : fold_and Bs = Bs.all id := by
  induction Bs with
  | nil => rfl
  | cons B Bs ih =>
    cases Bs with
    | nil => simp [fold_and]
    | cons C Cs =>
      have h : fold_and (B :: C :: Cs) = (B && fold_and (C :: Cs)) := rfl
      rw [h, ih, List.all_cons]; rfl

theorem matches_filters_from_tuple_eq_all (Fs : List Filter) {Us : List Ty} (components : Tuple Us) :
    matches_filters_from_tuple Fs components = Fs.all (fun F => matches_filter F components) := by
  unfold matches_filters_from_tuple matches_filters_from_tuple_impl
  rw [map_make_index_sequence (fun F => matches_filter F components) Fs, fold_and_eq_all]
  induction Fs with
  | nil => rfl
  | cons F Fs ih => simp only [List.map_cons, List.all_cons, ih, id]

theorem matches_filter_With (T : Ty) {Us : List Ty} (components : Tuple Us) :
    matches_filter (.With T) components = is_in_tuple T Us := by
  simp [matches_filter, is_same, Filter.type]

theorem matches_filter_Without (T : Ty) {Us : List Ty} (components : Tuple Us) :
    matches_filter (.Without T) components = !is_in_tuple T Us := by
  simp [matches_filter, is_same, Filter.type]



/-! ## Projection -/

theorem get_components_eq_tie (Ts : List Ty) {Us : List Ty} (components : Tuple Us) :
    get_components Ts components = std_tie (Ts.map (fun T => get_component T components)) := by
  unfold get_components get_components_impl
  rw [map_make_index_sequence (fun T => get_component T components) Ts]

theorem mem_EntityTypes (T : Ty) :
    T ∈ EntityTypes ↔ T = .Position ∨ T = .Velocity ∨ T = .Npc ∨ T = .Health := by
  simp [EntityTypes]

theorem get_component_declared (e : Entity) (T : Ty) (hT : T ∈ EntityTypes) :
    ∃ r, get_component T e.components = .ok r ∧ some (e.components.read r) = e.component T := by
  rcases (mem_EntityTypes T).mp hT with h | h | h | h <;> subst h
  · exact ⟨⟨0, by decide⟩, rfl, rfl⟩
  · exact ⟨⟨1, by decide⟩, rfl, rfl⟩
  · exact ⟨⟨2, by decide⟩, rfl, rfl⟩
  · exact ⟨⟨3, by decide⟩, rfl, rfl⟩

theorem get_component_undeclared (T : Ty) (hT : T ∉ EntityTypes) (components : Tuple EntityTypes) :
    get_component T components = .error (.not_exactly_once T) := by
  have h0 : EntityTypes.count T = 0 := List.count_eq_zero_of_not_mem hT
  unfold get_component std_get
  rw [h0]
  rfl

theorem get_component_ok_iff (T : Ty) (components : Tuple EntityTypes) :
    (∃ r, get_component T components = .ok r) ↔ T ∈ EntityTypes := by
  constructor
  · rintro ⟨r, hr⟩
    by_contra hT
    rw [get_component_undeclared T hT] at hr
    cases hr
  · intro hT
    obtain ⟨r, hr, _⟩ := get_component_declared ⟨components⟩ T hT
    exact ⟨r, hr⟩

theorem std_tie_map_ok {ε α β : Type} (f : α → Except ε β) (l : List α) (rs : List β) :
    std_tie (l.map f) = .ok rs ↔ l.map f = rs.map .ok := by
  induction l generalizing rs with
  | nil =>
    cases rs with
    | nil => simp [std_tie]
    | cons r rs => simp [std_tie]
  | cons a l ih =>
    rw [List.map_cons]
    cases hfa : f a with
    | error err =>
      rw [std_tie]
      cases rs <;> simp
    | ok r =>
      rw [std_tie]
      cases htl : std_tie (l.map f) with
      | error err =>
        cases rs with
        | nil => simp
        | cons r' rs' =>
          simp only [List.map_cons, List.cons.injEq, Except.ok.injEq, reduceCtorEq, false_iff,
            not_and]
          intro _ h
          rw [(ih rs').mpr h] at htl
          cases htl
      | ok rs0 =>
        have h0 := (ih rs0).mp htl
        cases rs with
        | nil => simp
        | cons r' rs' =>
          simp only [List.map_cons, List.cons.injEq, Except.ok.injEq, h0]
          constructor
          · rintro ⟨h1, h2⟩
            exact ⟨h1, by rw [h2]⟩
          · rintro ⟨h1, h2⟩
            exact ⟨h1, List.map_injective_iff.mpr (fun _ _ h => Except.ok.inj h) h2⟩

theorem std_tie_map_error {ε α β : Type} (f : α → Except ε β) (l : List α)
    (h : ∃ a ∈ l, ∃ err, f a = .error err) :
    ∃ a ∈ l, ∃ err, f a = .error err ∧ std_tie (l.map f) = .error err := by
  induction l with
  | nil => simp at h
  | cons a l ih =>
    rw [List.map_cons]
    cases hfa : f a with
    | error err => exact ⟨a, List.mem_cons_self _ _, err, hfa, by rw [std_tie]⟩
    | ok r =>
      rw [std_tie]
      have h' : ∃ b ∈ l, ∃ err, f b = .error err := by
        obtain ⟨b, hb, err, hberr⟩ := h
        rcases List.mem_cons.mp hb with hba | hbl
        · subst hba; rw [hfa] at hberr; cases hberr
        · exact ⟨b, hbl, err, hberr⟩
      obtain ⟨b, hb, err, hberr, htie⟩ := ih h'
      refine ⟨b, List.mem_cons_of_mem _ hb, err, hberr, ?_⟩
      simp only [htie]

theorem get_components_declared (e : Entity) (Ts : List Ty) (hTs : ∀ T ∈ Ts, T ∈ EntityTypes) :
    ∃ refs, get_components Ts e.components = .ok refs ∧
      refs.map (fun r => some (e.components.read r)) = Ts.map e.component := by
  induction Ts with
  | nil => exact ⟨[], rfl, rfl⟩
  | cons T Ts ih =>
    obtain ⟨refs, hrefs, hread⟩ := ih (fun U hU => hTs U (List.mem_cons_of_mem _ hU))
    obtain ⟨r, hr, hrd⟩ := get_component_declared e T (hTs T (List.mem_cons_self _ _))
    refine ⟨r :: refs, ?_, ?_⟩
    · rw [get_components_eq_tie] at hrefs ⊢
      rw [List.map_cons, hr, std_tie]
      simp only [hrefs]
    · rw [List.map_cons, List.map_cons, hrd, hread]

theorem get_components_undeclared (Ts : List Ty) (hTs : ∃ T ∈ Ts, T ∉ EntityTypes)
    (components : Tuple EntityTypes) :
    ∃ T ∈ Ts, T ∉ EntityTypes ∧ get_components Ts components = .error (.not_exactly_once T) := by
  have h : ∃ T ∈ Ts, ∃ err, get_component T components = .error err := by
    obtain ⟨T, hT, hnot⟩ := hTs
    exact ⟨T, hT, _, get_component_undeclared T hnot components⟩
  obtain ⟨T, hT, err, herr, htie⟩ := std_tie_map_error (fun T => get_component T components) Ts h
  have hnot : T ∉ EntityTypes := by
    intro hin
    obtain ⟨r, hr⟩ := (get_component_ok_iff T components).mpr hin
    rw [hr] at herr
    cases herr
  rw [get_component_undeclared T hnot components] at herr
  refine ⟨T, hT, hnot, ?_⟩
  rw [get_components_eq_tie, htie]
  cases herr
  rfl

/-- The references a projection yields depend on the tuple's type only. -/
theorem project_congr (q : Query) {Us : List Ty} (c c' : Tuple Us) : q.project c = q.project c' := by
  unfold Query.project
  cases q.TData <;> rfl



/-! ## The loop of `execute` -/

theorem project_declared (q : Query) (h : ∀ T ∈ q.TData.names, T ∈ EntityTypes) :
    ∃ refs, (∀ c : Tuple EntityTypes, q.project c = .ok refs) ∧
      ∀ e : Entity, refs.map (fun r => some (e.components.read r)) = q.TData.names.map e.component := by
  obtain ⟨TData, TFilter⟩ := q
  cases TData with
  | type T =>
    have hT : T ∈ EntityTypes := h T (List.mem_singleton_self T)
    obtain ⟨r, hr, _⟩ := get_component_declared ⟨declval EntityTypes⟩ T hT
    refine ⟨[r], ?_, ?_⟩
    · intro c
      have hc : get_component T c = .ok r := hr
      simp only [Query.project, hc]
    · intro e
      obtain ⟨r', hr', hrd⟩ := get_component_declared e T hT
      have hrr : r' = r := by
        have h1 : get_component T e.components = .ok r := hr
        rw [hr'] at h1
        exact Except.ok.inj h1
      subst hrr
      simp only [Param.names, List.map_cons, List.map_nil, hrd]
  | tuple Ts =>
    obtain ⟨refs, hrefs, _⟩ := get_components_declared ⟨declval EntityTypes⟩ Ts h
    refine ⟨refs, ?_, ?_⟩
    · intro c
      exact hrefs
    · intro e
      obtain ⟨refs', hrefs', hrd⟩ := get_components_declared e Ts h
      have hrr : refs' = refs := by
        have h1 : get_components Ts e.components = .ok refs := hrefs
        rw [hrefs'] at h1
        exact Except.ok.inj h1
      subst hrr
      exact hrd

theorem project_undeclared (q : Query) (h : ∃ T ∈ q.TData.names, T ∉ EntityTypes) :
    ∃ T ∈ q.TData.names, T ∉ EntityTypes ∧
      ∀ c : Tuple EntityTypes, q.project c = .error (.not_exactly_once T) := by
  obtain ⟨TData, TFilter⟩ := q
  cases TData with
  | type T =>
    obtain ⟨U, hU, hnot⟩ := h
    have hUT : U = T := List.mem_singleton.mp hU
    subst hUT
    refine ⟨U, hU, hnot, ?_⟩
    intro c
    simp only [Query.project, get_component_undeclared U hnot c]
  | tuple Ts =>
    obtain ⟨T, hT, hnot, herr⟩ := get_components_undeclared Ts h (declval EntityTypes)
    exact ⟨T, hT, hnot, fun _ => herr⟩

theorem visit_no_match {σ : Type} (q : Query) (lambda : Handler σ) (e : Entity) (s : σ)
    (hm : matches_filters_impl q.TFilter e.components = false) :
    q.visit lambda e s = .ok (e, s) := by
  simp [Query.visit, hm]

theorem visit_match {σ : Type} (q : Query) (refs : List (Ref EntityTypes))
    (hp : ∀ c : Tuple EntityTypes, q.project c = .ok refs) (lambda : Handler σ) (e : Entity) (s : σ)
    (hm : matches_filters_impl q.TFilter e.components = true) :
    q.visit lambda e s =
      .ok (⟨(lambda refs e.components s).1⟩, (lambda refs e.components s).2) := by
  simp [Query.visit, hm, hp]

theorem loop_cons {σ : Type} (q : Query) (lambda : Handler σ) (e : Entity) (es : List Entity)
    (s : σ) (e' : Entity) (s' : σ) (hv : q.visit lambda e s = .ok (e', s')) :
    q.loop lambda (e :: es) s =
      match q.loop lambda es s' with
      | .error err => .error err
      | .ok rs => .ok (e' :: rs.1, rs.2) := by
  rw [Query.loop]
  simp only [hv]

theorem loop_no_match {σ : Type} (q : Query) (lambda : Handler σ) (es : List Entity) (s : σ)
    (hm : ∀ e ∈ es, matches_filters_impl q.TFilter e.components = false) :
    q.loop lambda es s = .ok (es, s) := by
  induction es with
  | nil => rfl
  | cons e es ih =>
    rw [loop_cons q lambda e es s e s (visit_no_match q lambda e s (hm e (List.mem_cons_self _ _))),
      ih (fun e' he' => hm e' (List.mem_cons_of_mem _ he'))]

theorem loop_traced {σ : Type} (q : Query) (refs : List (Ref EntityTypes))
    (hp : ∀ c : Tuple EntityTypes, q.project c = .ok refs) (lambda : Handler σ)
    (es : List Entity) (s : σ) (tr : List (List Value)) :
    ∃ es' s', q.loop lambda es s = .ok (es', s') ∧ es'.length = es.length ∧
      q.loop (traced lambda) es (s, tr) = .ok (es', (s', tr ++
        (es.filter (fun e => matches_filters_impl q.TFilter e.components)).map
          (fun e => refs.map e.components.read))) := by
  induction es generalizing s tr with
  | nil => exact ⟨[], s, rfl, rfl, by simp [Query.loop]⟩
  | cons e es ih =>
    cases hm : matches_filters_impl q.TFilter e.components with
    | false =>
      obtain ⟨es', s', h1, hlen, h2⟩ := ih s tr
      refine ⟨e :: es', s', ?_, by simp [hlen], ?_⟩
      · rw [loop_cons q lambda e es s e s (visit_no_match q lambda e s hm), h1]
      · rw [loop_cons q (traced lambda) e es (s, tr) e (s, tr)
          (visit_no_match q (traced lambda) e (s, tr) hm), h2]
        simp [List.filter_cons, hm]
    | true =>
      obtain ⟨es', s', h1, hlen, h2⟩ := ih (lambda refs e.components s).2
        (tr ++ [refs.map e.components.read])
      refine ⟨⟨(lambda refs e.components s).1⟩ :: es', s', ?_, by simp [hlen], ?_⟩
      · rw [loop_cons q lambda e es s _ _ (visit_match q refs hp lambda e s hm), h1]
      · rw [loop_cons q (traced lambda) e es (s, tr) _ _
          (visit_match q refs hp (traced lambda) e (s, tr) hm)]
        simp only [traced]
        rw [h2]
        simp [List.filter_cons, hm]

theorem loop_append {σ : Type} (q : Query) (lambda : Handler σ) (es1 es2 : List Entity) (s : σ)
    (r1 : List Entity × σ) (r2 : List Entity × σ)
    (h1 : q.loop lambda es1 s = .ok r1) (h2 : q.loop lambda es2 r1.2 = .ok r2) :
    q.loop lambda (es1 ++ es2) s = .ok (r1.1 ++ r2.1, r2.2) := by
  induction es1 generalizing s r1 with
  | nil =>
    simp only [Query.loop, Except.ok.injEq] at h1
    subst h1
    simpa using h2
  | cons e es ih =>
    rw [Query.loop] at h1
    cases hv : q.visit lambda e s with
    | error err => simp [hv] at h1
    | ok r =>
      simp only [hv] at h1
      cases hl : q.loop lambda es r.2 with
      | error err => simp [hl] at h1
      | ok rs =>
        simp only [hl, Except.ok.injEq] at h1
        subst h1
        rw [List.cons_append, loop_cons q lambda e (es ++ es2) s r.1 r.2 hv, ih r.2 rs hl h2]
        rfl

theorem execute_declared {σ : Type} (q : Query) (h : ∀ T ∈ q.TData.names, T ∈ EntityTypes)
    (entities : List Entity) (lambda : Handler σ) (s : σ) :
    q.execute entities lambda s = q.loop lambda entities s := by
  obtain ⟨refs, hp, _⟩ := project_declared q h
  simp only [Query.execute, hp]

theorem execute_undeclared {σ : Type} (q : Query) (h : ∃ T ∈ q.TData.names, T ∉ EntityTypes) :
    ∃ T ∈ q.TData.names, T ∉ EntityTypes ∧
      ∀ (entities : List Entity) (lambda : Handler σ) (s : σ),
        q.execute entities lambda s = .error (.not_exactly_once T) := by
  obtain ⟨T, hT, hnot, hp⟩ := project_undeclared q h
  refine ⟨T, hT, hnot, ?_⟩
  intro entities lambda s
  simp only [Query.execute, hp]



/-! ## Filter evaluation: the claims -/

/-- C1: for every component type `T` and every tuple of component types `S`,
`matches_filter` on `With<T>` is true exactly when `T` is a member of `S`, and on
`Without<T>` exactly when `T` is not a member of `S`. -/
theorem matches_filter_iff_mem (T : Ty) (S : List Ty) (components : Tuple S) :
    (matches_filter (.With T) components = true ↔ T ∈ S) ∧
    (matches_filter (.Without T) components = true ↔ T ∉ S) := by
  rw [matches_filter_With, matches_filter_Without]
  constructor
  · exact is_in_tuple_iff T S
  · rw [Bool.not_eq_true', ← Bool.not_eq_true, is_in_tuple_iff]

/-- C4: for every tuple of components and every filter list,
`matches_filters_from_tuple` is the conjunction of `matches_filter` over the
filters of the list; it is false as soon as one filter of the list is false, and
true for the empty list. -/
theorem matches_filters_from_tuple_is_conjunction (Fs : List Filter) (Us : List Ty)
    (components : Tuple Us) :
    matches_filters_from_tuple Fs components = Fs.all (fun F => matches_filter F components) ∧
    (∀ F ∈ Fs, matches_filter F components = false →
      matches_filters_from_tuple Fs components = false) ∧
    matches_filters_from_tuple [] components = true := by
  refine ⟨matches_filters_from_tuple_eq_all Fs components, ?_, rfl⟩
  intro F hF hfalse
  rw [matches_filters_from_tuple_eq_all, List.all_eq_false]
  exact ⟨F, hF, by simp [hfalse]⟩

/-! ## Projection and iteration: the claims -/

/-- C2: for every store, every filter list and every data descriptor that names
declared component types only, `execute` succeeds, and the record of its handler
calls is, in store order, the projection of each entity that satisfies the
filter list: one call per such entity, none for the others. -/
theorem execute_calls_matching_in_order {σ : Type} (entities : List Entity) (Fs : List Filter)
    (TData : Param Ty) (hT : ∀ T ∈ TData.names, T ∈ EntityTypes) (lambda : Handler σ) (s : σ) :
    ∃ entities' s' calls,
      Query.execute ⟨TData, .tuple Fs⟩ entities lambda s = .ok (entities', s') ∧
      Query.execute ⟨TData, .tuple Fs⟩ entities (traced lambda) (s, []) =
        .ok (entities', (s', calls)) ∧
      calls.map (List.map some) =
        (entities.filter (fun e => matches_filters_from_tuple Fs e.components)).map
          (fun e => TData.names.map e.component) := by
  obtain ⟨refs, hp, hread⟩ := project_declared ⟨TData, .tuple Fs⟩ hT
  obtain ⟨entities', s', h1, _, h2⟩ := loop_traced ⟨TData, .tuple Fs⟩ refs hp lambda entities s []
  rw [List.nil_append] at h2
  refine ⟨entities', s', (entities.filter (fun e => matches_filters_from_tuple Fs e.components)).map
    (fun e => refs.map e.components.read), ?_, ?_, ?_⟩
  · rw [execute_declared _ hT, h1]
  · rw [execute_declared _ hT, h2]
    rfl
  · rw [List.map_map]
    apply List.map_congr_left
    intro e _
    rw [Function.comp_apply, List.map_map, ← hread e]
    rfl

/-- Scenario A: on the store of `main`, with data `{Position, Velocity}` and filter
`{With<Position>}`, the handler is called three times, for `e1`, `e2`, `e3` in this
order, with their positions `(1, 2)`, `(3, 4)`, `(5, 6)` and velocities
`(0.1, 0.2)`, `(0.3, 0.4)`, `(0.5, 0.6)`. -/
theorem execute_calls_matching_in_order_witness :
    (∀ T ∈ (Param.tuple [Ty.Position, Ty.Velocity]).names, T ∈ EntityTypes) ∧
    (∃ entities' s' calls,
      Query.execute ⟨.tuple [.Position, .Velocity], .tuple [.With .Position]⟩ main_entities idle () =
        .ok (entities', s') ∧
      Query.execute ⟨.tuple [.Position, .Velocity], .tuple [.With .Position]⟩ main_entities
        (traced idle) ((), []) = .ok (entities', (s', calls)) ∧
      calls.map (List.map some) =
        (main_entities.filter
          (fun e => matches_filters_from_tuple [.With .Position] e.components)).map
          (fun e => (Param.tuple [Ty.Position, Ty.Velocity]).names.map e.component)) ∧
    Query.execute ⟨.tuple [.Position, .Velocity], .tuple [.With .Position]⟩ main_entities
        (traced idle) ((), []) =
      .ok (main_entities, ((), [
        [⟨.Position, ⟨F32.tenths 10, F32.tenths 20⟩⟩, ⟨.Velocity, ⟨F32.tenths 1, F32.tenths 2⟩⟩],
        [⟨.Position, ⟨F32.tenths 30, F32.tenths 40⟩⟩, ⟨.Velocity, ⟨F32.tenths 3, F32.tenths 4⟩⟩],
        [⟨.Position, ⟨F32.tenths 50, F32.tenths 60⟩⟩, ⟨.Velocity, ⟨F32.tenths 5, F32.tenths 6⟩⟩]])) :=
  ⟨by decide,
   execute_calls_matching_in_order main_entities [.With .Position] (.tuple [.Position, .Velocity])
     (by decide) idle (),
   rfl⟩

/-- C3: for every entity and every data descriptor `D_0, ..., D_{n-1}` of declared
component types, `get_components` yields exactly `n` references, and the one at
position `i` refers to the entity's stored component of type `D_i`, whatever the
place of that type in the entity's storage order; for `{Velocity, Position}` these
are the entity's velocity and then its position. -/
theorem get_components_in_descriptor_order (e : Entity) (Ts : List Ty)
    (hTs : ∀ T ∈ Ts, T ∈ EntityTypes) :
    (∃ refs, get_components Ts e.components = .ok refs ∧ refs.length = Ts.length ∧
      ∀ (i : Nat) (hi : i < Ts.length),
        (refs[i]?).map e.components.read = e.component Ts[i]) ∧
    (∃ v p, get_components [.Velocity, .Position] e.components = .ok [v, p] ∧
      e.components.read v = ⟨.Velocity, e.components.2.1⟩ ∧
      e.components.read p = ⟨.Position, e.components.1⟩) := by
  constructor
  · obtain ⟨refs, hrefs, hread⟩ := get_components_declared e Ts hTs
    have hlen : refs.length = Ts.length := by
      have := congrArg List.length hread
      simpa using this
    refine ⟨refs, hrefs, hlen, ?_⟩
    intro i hi
    have hi' : i < refs.length := hlen ▸ hi
    have hget := congrArg (fun l => l[i]?) hread
    simp only [List.getElem?_map, List.getElem?_eq_getElem hi, List.getElem?_eq_getElem hi',
      Option.map_some', Option.some.injEq] at hget
    rw [List.getElem?_eq_getElem hi', Option.map_some', hget]
  · exact ⟨⟨1, by decide⟩, ⟨0, by decide⟩, rfl, rfl, rfl⟩

/-- The entity `e1` of `main` and the descriptor `{Velocity, Position}`. -/
theorem get_components_in_descriptor_order_witness :
    (∀ T ∈ [Ty.Velocity, Ty.Position], T ∈ EntityTypes) ∧
    ((∃ refs, get_components [.Velocity, .Position] e1.components = .ok refs ∧
      refs.length = [Ty.Velocity, Ty.Position].length ∧
      ∀ (i : Nat) (hi : i < [Ty.Velocity, Ty.Position].length),
        (refs[i]?).map e1.components.read = e1.component [Ty.Velocity, Ty.Position][i]) ∧
    (∃ v p, get_components [.Velocity, .Position] e1.components = .ok [v, p] ∧
      e1.components.read v = ⟨.Velocity, e1.components.2.1⟩ ∧
      e1.components.read p = ⟨.Position, e1.components.1⟩)) :=
  ⟨by decide, get_components_in_descriptor_order e1 [.Velocity, .Position] (by decide)⟩



/-! ## Binding errors: the claims -/

/-- C5, as stated, fails: `int` (here `Other 0`) is not a component type, yet
the query filtered by `With<int>` is constructed and executed without error,
the filter is the ordinary boolean `false` for each entity of the store of `main`,
and the handler is never called. -/
theorem unknown_filter_type_counterexample :
    Ty.Other 0 ∉ EntityTypes ∧
    Query.construct (.tuple [.Position]) (.tuple [.With (.Other 0)]) main_entities =
      .ok ⟨.tuple [.Position], .tuple [.With (.Other 0)]⟩ ∧
    main_entities.map (fun e => matches_filter (.With (.Other 0)) e.components) =
      [false, false, false] ∧
    Query.execute ⟨.tuple [.Position], .tuple [.With (.Other 0)]⟩ main_entities (traced idle)
      ((), []) = .ok (main_entities, ((), [])) :=
  ⟨by decide, rfl, rfl, rfl⟩

/-- C5, amended: for a filter `With<T>` or `Without<T>` whose type `T` is none of
the component types, constructing the query raises no error and the filter is
an ordinary boolean at run time: `With<T>` is false and `Without<T>` is true for
every entity. -/
theorem unknown_filter_type_is_plain_boolean (T : Ty) (hT : T ∉ EntityTypes) (TData : Param Ty)
    (entities : List Entity) (e : Entity) :
    Query.construct TData (.tuple [.With T]) entities = .ok ⟨TData, .tuple [.With T]⟩ ∧
    Query.construct TData (.tuple [.Without T]) entities = .ok ⟨TData, .tuple [.Without T]⟩ ∧
    matches_filter (.With T) e.components = false ∧
    matches_filter (.Without T) e.components = true := by
  refine ⟨rfl, rfl, ?_, ?_⟩
  · rw [matches_filter_With, ← Bool.not_eq_true, is_in_tuple_iff]
    exact hT
  · rw [matches_filter_Without, Bool.not_eq_true', ← Bool.not_eq_true, is_in_tuple_iff]
    exact hT

/-- The type `Other 0`, on the entity `e1` of `main`. -/
theorem unknown_filter_type_is_plain_boolean_witness :
    Ty.Other 0 ∉ EntityTypes ∧
    (Query.construct (.type .Health) (.tuple [.With (.Other 0)]) main_entities =
      .ok ⟨.type .Health, .tuple [.With (.Other 0)]⟩ ∧
    Query.construct (.type .Health) (.tuple [.Without (.Other 0)]) main_entities =
      .ok ⟨.type .Health, .tuple [.Without (.Other 0)]⟩ ∧
    matches_filter (.With (.Other 0)) e1.components = false ∧
    matches_filter (.Without (.Other 0)) e1.components = true) :=
  ⟨by decide,
   unknown_filter_type_is_plain_boolean (.Other 0) (by decide) (.type .Health) main_entities e1⟩

/-- C6, as stated, fails: the data descriptor `{int}` (here `Other 0`) names a
type that is not declared for the entity model, and constructing the query over
the store of `main` succeeds. -/
theorem undeclared_data_counterexample :
    Ty.Other 0 ∈ (Param.tuple [Ty.Other 0]).names ∧ Ty.Other 0 ∉ EntityTypes ∧
    Query.construct (.tuple [.Other 0]) (.tuple []) main_entities =
      .ok ⟨.tuple [.Other 0], .tuple []⟩ :=
  ⟨by decide, by decide, rfl⟩

/-- C6, amended: when the data descriptor names a type that is not declared for
the entity model, constructing the query succeeds; it is `execute` that is
rejected, with an error that names an offending type of the descriptor, whatever
the store, the handler and its state, so that no call of `execute` runs. -/
theorem undeclared_data_rejected_by_execute (TData : Param Ty) (TFilter : Param Filter)
    (h : ∃ T ∈ TData.names, T ∉ EntityTypes) (store : List Entity) :
    Query.construct TData TFilter store = .ok ⟨TData, TFilter⟩ ∧
    ∃ T ∈ TData.names, T ∉ EntityTypes ∧
      ∀ (σ : Type) (entities : List Entity) (lambda : Handler σ) (s : σ),
        Query.execute ⟨TData, TFilter⟩ entities lambda s = .error (.not_exactly_once T) := by
  refine ⟨rfl, ?_⟩
  obtain ⟨T, hT, hnot, hp⟩ := project_undeclared ⟨TData, TFilter⟩ h
  refine ⟨T, hT, hnot, ?_⟩
  intro σ entities lambda s
  simp only [Query.execute, hp]

/-- The descriptor `{Position, int}` with the filter `{With<Position>}`. -/
theorem undeclared_data_rejected_by_execute_witness :
    (∃ T ∈ (Param.tuple [Ty.Position, Ty.Other 0]).names, T ∉ EntityTypes) ∧
    (Query.construct (.tuple [.Position, .Other 0]) (.tuple [.With .Position]) main_entities =
      .ok ⟨.tuple [.Position, .Other 0], .tuple [.With .Position]⟩ ∧
    ∃ T ∈ (Param.tuple [Ty.Position, Ty.Other 0]).names, T ∉ EntityTypes ∧
      ∀ (σ : Type) (entities : List Entity) (lambda : Handler σ) (s : σ),
        Query.execute ⟨.tuple [.Position, .Other 0], .tuple [.With .Position]⟩ entities lambda s =
          .error (.not_exactly_once T)) ∧
    Query.execute ⟨.tuple [.Position, .Other 0], .tuple [.With .Position]⟩ main_entities idle () =
      .error (.not_exactly_once (.Other 0)) :=
  ⟨⟨.Other 0, by decide, by decide⟩,
   undeclared_data_rejected_by_execute (.tuple [.Position, .Other 0]) (.tuple [.With .Position])
     ⟨.Other 0, by decide, by decide⟩ main_entities,
   rfl⟩

/-- C7: projecting a data descriptor against an entity succeeds exactly when
every type the descriptor names is a component type of the entity.  A projection
that succeeds has one reference per named type, each to the stored component of
that type (never fewer, never an object made up for the occasion); one that
names a missing type is the error that names such a type.  The same holds of
`get_component` for a single type. -/
theorem projection_succeeds_iff_declared (e : Entity) (Ts : List Ty) (T : Ty) :
    ((∃ refs, get_components Ts e.components = .ok refs) ↔ ∀ U ∈ Ts, U ∈ EntityTypes) ∧
    (∀ refs, get_components Ts e.components = .ok refs →
      refs.length = Ts.length ∧
      refs.map (fun r => some (e.components.read r)) = Ts.map e.component) ∧
    ((∃ U ∈ Ts, U ∉ EntityTypes) →
      ∃ U ∈ Ts, U ∉ EntityTypes ∧
        get_components Ts e.components = .error (.not_exactly_once U)) ∧
    ((∃ r, get_component T e.components = .ok r) ↔ T ∈ EntityTypes) ∧
    (∀ r, get_component T e.components = .ok r → some (e.components.read r) = e.component T) ∧
    (T ∉ EntityTypes → get_component T e.components = .error (.not_exactly_once T)) := by
  have hiff : (∃ refs, get_components Ts e.components = .ok refs) ↔ ∀ U ∈ Ts, U ∈ EntityTypes := by
    constructor
    · rintro ⟨refs, hrefs⟩
      by_contra hnot
      push_neg at hnot
      obtain ⟨U, _, _, herr⟩ := get_components_undeclared Ts hnot e.components
      rw [herr] at hrefs
      cases hrefs
    · intro hall
      obtain ⟨refs, hrefs, _⟩ := get_components_declared e Ts hall
      exact ⟨refs, hrefs⟩
  refine ⟨hiff, ?_, fun h => get_components_undeclared Ts h e.components,
    get_component_ok_iff T e.components, ?_, fun h => get_component_undeclared T h e.components⟩
  · intro refs hrefs
    obtain ⟨refs', hrefs', hread⟩ := get_components_declared e Ts (hiff.mp ⟨refs, hrefs⟩)
    rw [hrefs] at hrefs'
    cases hrefs'
    refine ⟨?_, hread⟩
    have := congrArg List.length hread
    simpa using this
  · intro r hr
    obtain ⟨r', hr', hread⟩ :=
      get_component_declared e T ((get_component_ok_iff T e.components).mp ⟨r, hr⟩)
    rw [hr] at hr'
    cases hr'
    exact hread



/-! ## Fixed-shape entities: the claims -/

theorem loop_ok {σ : Type} (q : Query) (h : ∀ T ∈ q.TData.names, T ∈ EntityTypes)
    (lambda : Handler σ) (es : List Entity) (s : σ) :
    ∃ es' s', q.loop lambda es s = .ok (es', s') ∧ es'.length = es.length := by
  obtain ⟨refs, hp, _⟩ := project_declared q h
  obtain ⟨es', s', h1, hlen, _⟩ := loop_traced q refs hp lambda es s []
  exact ⟨es', s', h1, hlen⟩

theorem matches_filters_from_tuple_is_false_of_mem (Fs : List Filter) {Us : List Ty}
    (components : Tuple Us) (F : Filter) (hF : F ∈ Fs)
    (hfalse : matches_filter F components = false) :
    matches_filters_from_tuple Fs components = false := by
  rw [matches_filters_from_tuple_eq_all, List.all_eq_false]
  exact ⟨F, hF, by simp [hfalse]⟩

theorem matches_filter_Without_declared (T : Ty) (hT : T ∈ EntityTypes) (e : Entity) :
    matches_filter (.Without T) e.components = false := by
  rw [matches_filter_Without, (is_in_tuple_iff T EntityTypes).mpr hT]
  rfl

/-- C8: every entity holds the four component types, so for a declared type `T`
the filter `Without<T>` is false for every entity; and for every store, a query
whose filter list contains `Without<T>` calls its handler zero times: an
execution that takes place leaves the store, the handler's state and the record
of calls as they were, and with a data descriptor of declared types it takes
place. -/
theorem without_declared_never_matches {σ : Type} (T : Ty) (hT : T ∈ EntityTypes)
    (TData : Param Ty) (Fs : List Filter) (hF : Filter.Without T ∈ Fs) (entities : List Entity)
    (lambda : Handler σ) (s : σ) :
    (∀ e : Entity, matches_filter (.Without T) e.components = false) ∧
    (∀ r, Query.execute ⟨TData, .tuple Fs⟩ entities (traced lambda) (s, []) = .ok r →
      r = (entities, (s, []))) ∧
    ((∀ U ∈ TData.names, U ∈ EntityTypes) →
      Query.execute ⟨TData, .tuple Fs⟩ entities (traced lambda) (s, []) =
        .ok (entities, (s, []))) := by
  have hno : ∀ e ∈ entities,
      matches_filters_impl (Query.mk TData (.tuple Fs)).TFilter e.components = false := by
    intro e _
    exact ((matches_filters_from_tuple_is_false_of_mem Fs e.components (.Without T) hF)
      (matches_filter_Without_declared T hT e))
  have hloop := loop_no_match ⟨TData, .tuple Fs⟩ (traced lambda) entities (s, []) hno
  refine ⟨matches_filter_Without_declared T hT, ?_, ?_⟩
  · intro r hr
    unfold Query.execute at hr
    cases hp : (Query.mk TData (.tuple Fs)).project (declval EntityTypes) with
    | error err => simp [hp] at hr
    | ok refs =>
      simp only [hp] at hr
      rw [hloop] at hr
      exact (Except.ok.inj hr).symm
  · intro hD
    rw [execute_declared _ hD, hloop]

/-- Scenario B: on the store of `main`, with the filter `{Without<Position>}`, the
handler is called zero times. -/
theorem without_declared_never_matches_witness :
    Ty.Position ∈ EntityTypes ∧ Filter.Without .Position ∈ [Filter.Without .Position] ∧
    ((∀ e : Entity, matches_filter (.Without .Position) e.components = false) ∧
    (∀ r, Query.execute ⟨.tuple [.Position, .Velocity], .tuple [.Without .Position]⟩ main_entities
        (traced idle) ((), []) = .ok r → r = (main_entities, ((), []))) ∧
    ((∀ U ∈ (Param.tuple [Ty.Position, Ty.Velocity]).names, U ∈ EntityTypes) →
      Query.execute ⟨.tuple [.Position, .Velocity], .tuple [.Without .Position]⟩ main_entities
        (traced idle) ((), []) = .ok (main_entities, ((), [])))) ∧
    Query.execute ⟨.tuple [.Position, .Velocity], .tuple [.Without .Position]⟩ main_entities
      (traced idle) ((), []) = .ok (main_entities, ((), [])) :=
  ⟨by decide, by decide,
   without_declared_never_matches .Position (by decide) (.tuple [.Position, .Velocity])
     [.Without .Position] (by decide) main_entities idle (),
   rfl⟩

/-- C9: for every store, a query whose data descriptor is the single declared
component type `T` and whose filter list is empty calls its handler once per
entity of the store, in store order, each time with one argument, the entity's
component of type `T`. -/
theorem execute_single_type_no_filter {σ : Type} (T : Ty) (hT : T ∈ EntityTypes)
    (entities : List Entity) (lambda : Handler σ) (s : σ) :
    ∃ entities' s' calls,
      Query.execute ⟨.type T, .tuple []⟩ entities lambda s = .ok (entities', s') ∧
      Query.execute ⟨.type T, .tuple []⟩ entities (traced lambda) (s, []) =
        .ok (entities', (s', calls)) ∧
      calls.map (List.map some) = entities.map (fun e => [e.component T]) := by
  have hD : ∀ U ∈ (Query.mk (.type T) (.tuple [])).TData.names, U ∈ EntityTypes := by
    intro U hU
    rw [List.mem_singleton.mp hU]
    exact hT
  obtain ⟨refs, hp, hread⟩ := project_declared ⟨.type T, .tuple []⟩ hD
  obtain ⟨entities', s', h1, _, h2⟩ := loop_traced ⟨.type T, .tuple []⟩ refs hp lambda entities s []
  have hall : entities.filter
      (fun e => matches_filters_impl (Query.mk (.type T) (.tuple [])).TFilter e.components)
      = entities := List.filter_eq_self.mpr (fun _ _ => rfl)
  rw [List.nil_append, hall] at h2
  refine ⟨entities', s', entities.map (fun e => refs.map e.components.read), ?_, ?_, ?_⟩
  · rw [execute_declared _ hD, h1]
  · rw [execute_declared _ hD, h2]
  · rw [List.map_map]
    apply List.map_congr_left
    intro e _
    rw [Function.comp_apply, List.map_map]
    exact hread e

/-- Scenario C: on the store of `main`, with data `Health` and no filter, the handler
is called three times, each time with one `Health`, of `hp` 100, 80 and 60 in this
order. -/
theorem execute_single_type_no_filter_witness :
    Ty.Health ∈ EntityTypes ∧
    (∃ entities' s' calls,
      Query.execute ⟨.type .Health, .tuple []⟩ main_entities idle () = .ok (entities', s') ∧
      Query.execute ⟨.type .Health, .tuple []⟩ main_entities (traced idle) ((), []) =
        .ok (entities', (s', calls)) ∧
      calls.map (List.map some) = main_entities.map (fun e => [e.component .Health])) ∧
    Query.execute ⟨.type .Health, .tuple []⟩ main_entities (traced idle) ((), []) =
      .ok (main_entities,
        ((), [[⟨.Health, ⟨100⟩⟩], [⟨.Health, ⟨80⟩⟩], [⟨.Health, ⟨60⟩⟩]])) :=
  ⟨by decide, execute_single_type_no_filter .Health (by decide) main_entities idle (), rfl⟩



/-! ## Aliasing: the claim -/

/-- C10: the handler's arguments refer to the entity in the store.  Let entity
`i` of the store match the filter of a query with a data descriptor of declared
types.  Then `execute` succeeds on the store, the handler is called for that
entity in the state `s_i` reached after the first `i` entities, and slot `i` of
the store after `execute` holds the components as that call left them: whatever
object `v` the call leaves in a component it was given a reference to is read
back from that component of slot `i`. -/
theorem execute_writes_reach_store {σ : Type} (q : Query)
    (hq : ∀ T ∈ q.TData.names, T ∈ EntityTypes) (entities : List Entity) (lambda : Handler σ)
    (s : σ) (i : Nat) (hi : i < entities.length)
    (hm : matches_filters_impl q.TFilter (entities[i]).components = true) :
    ∃ refs before s_i after s',
      q.project (entities[i]).components = .ok refs ∧
      q.execute (entities.take i) lambda s = .ok (before, s_i) ∧
      q.execute entities lambda s = .ok (after, s') ∧
      after.length = entities.length ∧
      (after[i]?).map (fun e => e.components) =
        some (lambda refs (entities[i]).components s_i).1 ∧
      ∀ r ∈ refs, ∀ v, (lambda refs (entities[i]).components s_i).1.read r = v →
        (after[i]?).map (fun e => e.components.read r) = some v := by
  obtain ⟨refs, hp, _⟩ := project_declared q hq
  obtain ⟨before, s_i, hbefore, hblen⟩ := loop_ok q hq lambda (entities.take i) s
  obtain ⟨rest, s', hrest, hrlen⟩ := loop_ok q hq lambda (entities.drop (i + 1))
    (lambda refs (entities[i]).components s_i).2
  have hsplit : entities = entities.take i ++ (entities[i] :: entities.drop (i + 1)) := by
    rw [← List.drop_eq_getElem_cons hi, List.take_append_drop]
  have htail : q.loop lambda (entities[i] :: entities.drop (i + 1)) s_i =
      .ok (⟨(lambda refs (entities[i]).components s_i).1⟩ :: rest, s') := by
    rw [loop_cons q lambda _ _ s_i _ _ (visit_match q refs hp lambda _ s_i hm), hrest]
  have hwhole : q.loop lambda entities s =
      .ok (before ++ (⟨(lambda refs (entities[i]).components s_i).1⟩ :: rest), s') := by
    have := loop_append q lambda (entities.take i) (entities[i] :: entities.drop (i + 1)) s
      (before, s_i) _ hbefore htail
    rw [← hsplit] at this
    exact this
  have hbi : before.length = i := by
    rw [hblen, List.length_take, Nat.min_eq_left (Nat.le_of_lt hi)]
  have hslot : (before ++ ((⟨(lambda refs (entities[i]).components s_i).1⟩ : Entity) :: rest))[i]?
      = some ⟨(lambda refs (entities[i]).components s_i).1⟩ := by
    rw [List.getElem?_append_right (Nat.le_of_eq hbi), hbi, Nat.sub_self]
    exact List.getElem?_cons_zero
  refine ⟨refs, before, s_i,
    before ++ (⟨(lambda refs (entities[i]).components s_i).1⟩ :: rest), s', hp _, ?_, ?_, ?_, ?_, ?_⟩
  · rw [execute_declared q hq, hbefore]
  · rw [execute_declared q hq, hwhole]
  · rw [List.length_append, List.length_cons, hbi, hrlen, List.length_drop]
    omega
  · rw [hslot]
    rfl
  · intro r _ v hv
    rw [hslot, Option.map_some', hv]

/-- The store of `main`, a query for `Health` without filter, and a handler that
stores `Health{0}` through its argument: slot 1 of the store, `e2`, reads
`Health{0}` afterwards, and so do the others. -/
theorem execute_writes_reach_store_witness :
    (∀ T ∈ (Query.mk (.type .Health) (.tuple [])).TData.names, T ∈ EntityTypes) ∧
    (1 < main_entities.length) ∧
    matches_filters_impl (Query.mk (.type .Health) (.tuple [])).TFilter
      (main_entities[1]).components = true ∧
    (∃ refs before s_i after s',
      (Query.mk (.type .Health) (.tuple [])).project (main_entities[1]).components = .ok refs ∧
      (Query.mk (.type .Health) (.tuple [])).execute (main_entities.take 1)
        (store_first ⟨.Health, ⟨0⟩⟩) () = .ok (before, s_i) ∧
      (Query.mk (.type .Health) (.tuple [])).execute main_entities
        (store_first ⟨.Health, ⟨0⟩⟩) () = .ok (after, s') ∧
      after.length = main_entities.length ∧
      (after[1]?).map (fun e => e.components) =
        some (store_first ⟨.Health, ⟨0⟩⟩ refs (main_entities[1]).components s_i).1 ∧
      ∀ r ∈ refs, ∀ v,
        (store_first ⟨.Health, ⟨0⟩⟩ refs (main_entities[1]).components s_i).1.read r = v →
        (after[1]?).map (fun e => e.components.read r) = some v) ∧
    (Query.mk (.type .Health) (.tuple [])).execute main_entities (store_first ⟨.Health, ⟨0⟩⟩) () =
      .ok ([⟨(⟨F32.tenths 10, F32.tenths 20⟩, ⟨F32.tenths 1, F32.tenths 2⟩, ⟨⟩, ⟨0⟩, ())⟩,
            ⟨(⟨F32.tenths 30, F32.tenths 40⟩, ⟨F32.tenths 3, F32.tenths 4⟩, ⟨⟩, ⟨0⟩, ())⟩,
            ⟨(⟨F32.tenths 50, F32.tenths 60⟩, ⟨F32.tenths 5, F32.tenths 6⟩, ⟨⟩, ⟨0⟩, ())⟩], ()) :=
  ⟨by decide, by decide, rfl,
   execute_writes_reach_store (Query.mk (.type .Health) (.tuple [])) (by decide) main_entities
     (store_first ⟨.Health, ⟨0⟩⟩) () 1 (by decide) rfl,
   rfl⟩



/-! ## Queries that agree, and what the loop leaves behind -/

/-- Filters look at the type of the tuple only. -/
theorem matches_filters_impl_congr (Filters : Param Filter) {Us : List Ty} (c c' : Tuple Us) :
    matches_filters_impl Filters c = matches_filters_impl Filters c' := rfl

theorem loop_congr {σ : Type} (q q' : Query) (lambda : Handler σ)
    (hv : ∀ (e : Entity) (s : σ), q.visit lambda e s = q'.visit lambda e s)
    (es : List Entity) (s : σ) : q.loop lambda es s = q'.loop lambda es s := by
  induction es generalizing s with
  | nil => rfl
  | cons e es ih =>
    rw [Query.loop, Query.loop, hv e s]
    cases q'.visit lambda e s with
    | error err => rfl
    | ok r => simp only [ih r.2]

theorem execute_congr {σ : Type} (q q' : Query) (lambda : Handler σ)
    (hm : ∀ c : Tuple EntityTypes,
      matches_filters_impl q.TFilter c = matches_filters_impl q'.TFilter c)
    (hp : ∀ c : Tuple EntityTypes, q.project c = q'.project c)
    (entities : List Entity) (s : σ) :
    q.execute entities lambda s = q'.execute entities lambda s := by
  have hv : ∀ (e : Entity) (t : σ), q.visit lambda e t = q'.visit lambda e t := by
    intro e t
    simp only [Query.visit, hm, hp]
  simp only [Query.execute, hp, loop_congr q q' lambda hv]

theorem project_type_eq_tuple (T : Ty) (F F' : Param Filter) {Us : List Ty} (c : Tuple Us) :
    (Query.mk (.type T) F).project c = (Query.mk (.tuple [T]) F').project c := by
  simp only [Query.project, get_components_eq_tie, List.map_cons, List.map_nil]
  cases get_component T c <;> rfl

theorem project_ok_declared (q : Query) (refs : List (Ref EntityTypes)) (c : Tuple EntityTypes)
    (h : q.project c = .ok refs) : ∀ T ∈ q.TData.names, T ∈ EntityTypes := by
  by_contra hnot
  push_neg at hnot
  obtain ⟨T, _, _, herr⟩ := project_undeclared q hnot
  rw [herr c] at h
  cases h

theorem execute_ok_declared {σ : Type} (q : Query) (entities : List Entity) (lambda : Handler σ)
    (s : σ) (r : List Entity × σ) (h : q.execute entities lambda s = .ok r) :
    ∀ T ∈ q.TData.names, T ∈ EntityTypes := by
  unfold Query.execute at h
  cases hp : q.project (declval EntityTypes) with
  | error err => simp [hp] at h
  | ok refs => exact project_ok_declared q refs _ hp

/-- What the loop leaves in each slot: the entity itself where the filter fails,
and otherwise the components as a call of the handler on that entity left them. -/
theorem loop_slots {σ : Type} (q : Query) (refs : List (Ref EntityTypes))
    (hp : ∀ c : Tuple EntityTypes, q.project c = .ok refs) (lambda : Handler σ)
    (es : List Entity) (s : σ) (es' : List Entity) (s' : σ)
    (h : q.loop lambda es s = .ok (es', s')) :
    List.Forall₂ (fun e e' =>
      (matches_filters_impl q.TFilter e.components = false ∧ e' = e) ∨
      (matches_filters_impl q.TFilter e.components = true ∧
        ∃ t, e'.components = (lambda refs e.components t).1)) es es' := by
  induction es generalizing s es' s' with
  | nil =>
    simp only [Query.loop, Except.ok.injEq, Prod.mk.injEq] at h
    rw [← h.1]
    exact List.Forall₂.nil
  | cons e es ih =>
    cases hm : matches_filters_impl q.TFilter e.components with
    | false =>
      rw [loop_cons q lambda e es s e s (visit_no_match q lambda e s hm)] at h
      cases hl : q.loop lambda es s with
      | error err => simp [hl] at h
      | ok rs =>
        simp only [hl, Except.ok.injEq, Prod.mk.injEq] at h
        rw [← h.1]
        exact List.Forall₂.cons (Or.inl ⟨hm, rfl⟩) (ih s rs.1 rs.2 hl)
    | true =>
      rw [loop_cons q lambda e es s _ _ (visit_match q refs hp lambda e s hm)] at h
      cases hl : q.loop lambda es (lambda refs e.components s).2 with
      | error err => simp [hl] at h
      | ok rs =>
        simp only [hl, Except.ok.injEq, Prod.mk.injEq] at h
        rw [← h.1]
        exact List.Forall₂.cons (Or.inr ⟨hm, s, rfl⟩) (ih _ rs.1 rs.2 hl)

theorem map_eq_of_forall₂ {α β : Type} (f : α → β) (R : α → α → Prop)
    (hR : ∀ a b, R a b → f b = f a) (l l' : List α) (h : List.Forall₂ R l l') :
    l'.map f = l.map f := by
  induction h with
  | nil => rfl
  | cons hab _ ih => rw [List.map_cons, List.map_cons, hR _ _ hab, ih]

theorem component_fst (e : Entity) (U : Ty) (v : Value) (h : e.component U = some v) :
    v.1 = U := by
  cases U <;> simp [Entity.component] at h <;> rw [← h]

/-- A reference of the projection points to a component the data descriptor names. -/
theorem ref_not_mem_of_not_named (q : Query) (refs : List (Ref EntityTypes))
    (hp : ∀ c : Tuple EntityTypes, q.project c = .ok refs) (e : Entity) (T : Ty)
    (hT : T ∉ q.TData.names) (r : Ref EntityTypes)
    (hr : some (e.components.read r) = e.component T) : r ∉ refs := by
  intro hmem
  obtain ⟨refs', hp', hread⟩ := project_declared q (project_ok_declared q refs e.components (hp _))
  have hrr : refs' = refs := by
    have h1 := hp' e.components
    rw [hp e.components] at h1
    exact (Except.ok.inj h1).symm
  subst hrr
  have h1 : some (e.components.read r) ∈ refs'.map (fun r => some (e.components.read r)) :=
    List.mem_map.mpr ⟨r, hmem, rfl⟩
  rw [hread e] at h1
  obtain ⟨U, hU, hUv⟩ := List.mem_map.mp h1
  have hfst1 := component_fst e U _ hUv
  have hfst2 := component_fst e T _ hr.symm
  rw [hfst1] at hfst2
  rw [hfst2] at hU
  exact hT hU



/-! ## Failure and repetition: the claims -/

theorem loop_error_project {σ : Type} (q : Query) (lambda : Handler σ) (es : List Entity) (s : σ)
    (err : BindError) (h : q.loop lambda es s = .error err) :
    ∃ e rest, es = e :: rest ∧ q.visit lambda e s = .error err ∧
      matches_filters_impl q.TFilter e.components = true ∧
      q.project e.components = .error err := by
  have hvisit : ∀ (e : Entity) (t : σ), q.visit lambda e t = .error err →
      matches_filters_impl q.TFilter e.components = true ∧
        q.project e.components = .error err := by
    intro e t hv
    unfold Query.visit at hv
    cases hm : matches_filters_impl q.TFilter e.components with
    | false => simp [hm] at hv
    | true =>
      refine ⟨rfl, ?_⟩
      cases hpr : q.project e.components with
      | ok refs => simp [hm, hpr] at hv
      | error err' =>
        simp only [hm, hpr, if_true, Except.error.injEq] at hv
        rw [hv]
  induction es generalizing s with
  | nil => simp [Query.loop] at h
  | cons e es ih =>
    cases hv : q.visit lambda e s with
    | error err' =>
      rw [Query.loop] at h
      simp only [hv, Except.error.injEq] at h
      subst h
      exact ⟨e, es, rfl, hv, hvisit e s hv⟩
    | ok r =>
      rw [loop_cons q lambda e es s r.1 r.2 hv] at h
      cases hl : q.loop lambda es r.2 with
      | ok rs => simp [hl] at h
      | error err' =>
        simp only [hl, Except.error.injEq] at h
        subst h
        obtain ⟨e', rest, _, _, hm', hp'⟩ := ih r.2 hl
        have hm : matches_filters_impl q.TFilter e.components = true := hm'
        have hp : q.project e.components = .error err' := hp'
        unfold Query.visit at hv
        simp [hm, hp] at hv

/-- C11: once the data descriptor of a query names declared component types only
(whatever its filters name), `execute` does not fail, on any store and with any
handler, and the projection succeeds for every entity.  Conversely a failure
of `execute` is the failure of the projection, which is the same for every
entity: it is there for the empty store and for every handler, and in the loop
it would strike in the visit of the first entity, so no failure follows a
handler call. -/
theorem execute_fails_before_any_call {σ : Type} (q : Query) (entities : List Entity)
    (lambda : Handler σ) (s : σ) :
    ((∀ T ∈ q.TData.names, T ∈ EntityTypes) →
      (∃ r, q.execute entities lambda s = .ok r) ∧
      ∀ e : Entity, ∃ refs, q.project e.components = .ok refs) ∧
    (∀ err, q.execute entities lambda s = .error err →
      (∀ e : Entity, q.project e.components = .error err) ∧
      (∀ (τ : Type) (store : List Entity) (handler : Handler τ) (t : τ),
        q.execute store handler t = .error err)) ∧
    (∀ err, q.loop lambda entities s = .error err →
      ∃ e rest, entities = e :: rest ∧ q.visit lambda e s = .error err ∧
        q.project e.components = .error err) := by
  refine ⟨?_, ?_, ?_⟩
  · intro hq
    obtain ⟨refs, hp, _⟩ := project_declared q hq
    obtain ⟨es', s', hl, _⟩ := loop_ok q hq lambda entities s
    exact ⟨⟨(es', s'), by rw [execute_declared q hq, hl]⟩, fun e => ⟨refs, hp _⟩⟩
  · intro err h
    have hp : q.project (declval EntityTypes) = .error err := by
      unfold Query.execute at h
      cases hpr : q.project (declval EntityTypes) with
      | error err' =>
        simp only [hpr, Except.error.injEq] at h
        rw [h]
      | ok refs =>
        simp only [hpr] at h
        obtain ⟨es', s', hl, _⟩ := loop_ok q (project_ok_declared q refs _ hpr) lambda entities s
        rw [hl] at h
        cases h
    refine ⟨fun e => (project_congr q e.components (declval EntityTypes)).trans hp, ?_⟩
    intro τ store handler t
    simp only [Query.execute, hp]
  · intro err h
    obtain ⟨e, rest, hes, hv, _, hp⟩ := loop_error_project q lambda entities s err h
    exact ⟨e, rest, hes, hv, hp⟩

/-- C12: `execute` keeps nothing between calls.  For a query with a data descriptor
of declared types and a handler that leaves the components it is given references
to as they are, a second `execute` on the store the first one left, with the
handler in the state the first one left, records the same handler calls as the
first, from the first entity on. -/
theorem execute_twice_same_calls {σ : Type} (q : Query)
    (hq : ∀ T ∈ q.TData.names, T ∈ EntityTypes) (entities : List Entity) (lambda : Handler σ)
    (hkeep : ∀ (refs : List (Ref EntityTypes)) (c : Tuple EntityTypes) (t : σ),
      ∀ r ∈ refs, (lambda refs c t).1.read r = c.read r)
    (s : σ) :
    ∃ entities1 s1 calls entities2 s2,
      q.execute entities (traced lambda) (s, []) = .ok (entities1, (s1, calls)) ∧
      q.execute entities1 (traced lambda) (s1, []) = .ok (entities2, (s2, calls)) := by
  obtain ⟨refs, hp, _⟩ := project_declared q hq
  obtain ⟨entities1, s1, hl1, _, ht1⟩ := loop_traced q refs hp lambda entities s []
  obtain ⟨entities2, s2, _, _, ht2⟩ := loop_traced q refs hp lambda entities1 s1 []
  rw [List.nil_append] at ht1 ht2
  have hproj : entities1.map (fun e => refs.map e.components.read) =
      entities.map (fun e => refs.map e.components.read) := by
    apply map_eq_of_forall₂ _ _ _ entities entities1 (loop_slots q refs hp lambda entities s _ _ hl1)
    intro e e' hrel
    rcases hrel with ⟨_, he⟩ | ⟨_, t, he⟩
    · rw [he]
    · show refs.map e'.components.read = refs.map e.components.read
      rw [he]
      exact List.map_congr_left (fun r hr => hkeep refs e.components t r hr)
  have hcalls : (entities1.filter (fun e => matches_filters_impl q.TFilter e.components)).map
        (fun e => refs.map e.components.read) =
      (entities.filter (fun e => matches_filters_impl q.TFilter e.components)).map
        (fun e => refs.map e.components.read) := by
    cases hm : matches_filters_impl q.TFilter (declval EntityTypes) with
    | false =>
      have hnil : ∀ l : List Entity,
          l.filter (fun e => matches_filters_impl q.TFilter e.components) = [] :=
        fun l => List.filter_eq_nil_iff.mpr (fun e _ => by
          rw [matches_filters_impl_congr q.TFilter e.components (declval EntityTypes), hm]
          simp)
      rw [hnil, hnil]
    | true =>
      have hself : ∀ l : List Entity,
          l.filter (fun e => matches_filters_impl q.TFilter e.components) = l :=
        fun l => List.filter_eq_self.mpr (fun e _ => by
          rw [matches_filters_impl_congr q.TFilter e.components (declval EntityTypes), hm])
      rw [hself, hself, hproj]
  refine ⟨entities1, s1,
    (entities.filter (fun e => matches_filters_impl q.TFilter e.components)).map
      (fun e => refs.map e.components.read), entities2, s2, ?_, ?_⟩
  · rw [execute_declared q hq, ht1]
  · rw [execute_declared q hq, ht2, hcalls]

/-- The query and the lambda of `main`, which only prints: run twice on the store
of `main`, it prints for `e1`, `e2`, `e3` both times. -/
theorem execute_twice_same_calls_witness :
    (∀ T ∈ main_query.TData.names, T ∈ EntityTypes) ∧
    (∀ (refs : List (Ref EntityTypes)) (c : Tuple EntityTypes)
      (t : List (F32 × F32 × F32 × F32)),
      ∀ r ∈ refs, (main_lambda refs c t).1.read r = c.read r) ∧
    (∃ entities1 s1 calls entities2 s2,
      main_query.execute main_entities (traced main_lambda) ([], []) =
        .ok (entities1, (s1, calls)) ∧
      main_query.execute entities1 (traced main_lambda) (s1, []) =
        .ok (entities2, (s2, calls))) ∧
    (main_query.execute main_entities main_lambda []).map (fun r => r.2.length) = .ok 3 :=
  have hkeep : ∀ (refs : List (Ref EntityTypes)) (c : Tuple EntityTypes)
      (t : List (F32 × F32 × F32 × F32)),
      ∀ r ∈ refs, (main_lambda refs c t).1.read r = c.read r := by
    intro refs c t r _
    unfold main_lambda
    split <;> rfl
  ⟨by decide, hkeep,
   execute_twice_same_calls main_query (by decide) main_entities main_lambda hkeep [], rfl⟩



/-! ## Frame and filters: the claims -/

theorem Tuple.read_write_ne : ∀ {Us : List Ty} (c : Tuple Us) (r r' : Ref Us) (v : Value),
    r' ≠ r → (c.write r v).read r' = c.read r'
  | [], _, r, _, _, _ => r.elim0
  | U :: Us, (a, t), ⟨0, _⟩, ⟨0, _⟩, _, hne => absurd rfl hne
  | U :: Us, (a, t), ⟨0, _⟩, ⟨j + 1, hj⟩, ⟨T, v⟩, _ => by
    unfold Tuple.write
    split <;> rfl
  | U :: Us, (a, t), ⟨i + 1, hi⟩, ⟨0, _⟩, _, _ => rfl
  | U :: Us, (a, t), ⟨i + 1, hi⟩, ⟨j + 1, hj⟩, v, hne => by
    have hne' : (⟨j, Nat.lt_of_succ_lt_succ hj⟩ : Ref Us) ≠ ⟨i, Nat.lt_of_succ_lt_succ hi⟩ := by
      intro h
      apply hne
      rw [Fin.mk.injEq] at h ⊢
      omega
    exact Tuple.read_write_ne t ⟨i, Nat.lt_of_succ_lt_succ hi⟩ ⟨j, Nat.lt_of_succ_lt_succ hj⟩ v hne'

theorem store_first_frame (v : Value) (refs : List (Ref EntityTypes)) (c : Tuple EntityTypes)
    (t : Unit) (r : Ref EntityTypes) (hr : r ∉ refs) :
    (store_first v refs c t).1.read r = c.read r := by
  cases refs with
  | nil => rfl
  | cons r0 rest =>
    have hne : r ≠ r0 := fun h => hr (h ▸ List.mem_cons_self _ _)
    exact Tuple.read_write_ne c r0 r v hne

/-- C13: let the handler change nothing but the components it is given
references to.  Then the store `execute` leaves has the length of the store it
found, and slot by slot: an entity the filter rejects is unchanged, and in every
entity each component whose type the data descriptor does not name is unchanged.
With a data descriptor of declared types `execute` does return such a store. -/
theorem execute_frame {σ : Type} (q : Query) (entities : List Entity) (lambda : Handler σ)
    (hframe : ∀ (refs : List (Ref EntityTypes)) (c : Tuple EntityTypes) (t : σ)
      (r : Ref EntityTypes), r ∉ refs → (lambda refs c t).1.read r = c.read r)
    (s : σ) :
    ((∀ T ∈ q.TData.names, T ∈ EntityTypes) → ∃ r, q.execute entities lambda s = .ok r) ∧
    ∀ after s', q.execute entities lambda s = .ok (after, s') →
      after.length = entities.length ∧
      ∀ (i : Nat) (hi : i < entities.length) (hi' : i < after.length),
        (matches_filters_impl q.TFilter (entities[i]).components = false →
          after[i] = entities[i]) ∧
        (∀ T, T ∉ q.TData.names → (after[i]).component T = (entities[i]).component T) := by
  constructor
  · intro hq
    obtain ⟨es', t', hl, _⟩ := loop_ok q hq lambda entities s
    exact ⟨(es', t'), by rw [execute_declared q hq, hl]⟩
  · intro after s' h
    have hq := execute_ok_declared q entities lambda s _ h
    obtain ⟨refs, hp, _⟩ := project_declared q hq
    rw [execute_declared q hq] at h
    have hslots := loop_slots q refs hp lambda entities s after s' h
    refine ⟨hslots.length_eq.symm, ?_⟩
    intro i hi hi'
    have hrel := List.Forall₂.get hslots hi hi'
    simp only [List.get_eq_getElem] at hrel
    constructor
    · intro hm
      rcases hrel with ⟨_, he⟩ | ⟨hm', _⟩
      · exact he
      · rw [hm] at hm'
        cases hm'
    · intro T hT
      rcases hrel with ⟨_, he⟩ | ⟨_, t, he⟩
      · rw [he]
      · by_cases hdecl : T ∈ EntityTypes
        · obtain ⟨r, hr, hread⟩ := get_component_declared entities[i] T hdecl
          obtain ⟨r', hr', hread'⟩ := get_component_declared after[i] T hdecl
          have hrr : r' = r := by
            have h1 : get_component T (after[i]).components = .ok r := hr
            rw [hr'] at h1
            exact Except.ok.inj h1
          subst hrr
          have hnot := ref_not_mem_of_not_named q refs hp entities[i] T hT r' hread
          rw [← hread', ← hread, he, hframe refs _ t r' hnot]
        · have hnone : ∀ e : Entity, e.component T = none := by
            intro e
            cases T with
            | Other id => rfl
            | _ => simp [EntityTypes] at hdecl
          rw [hnone, hnone]

/-- The store of `main`, a query for `Health` with the filter `{With<Position>}`, and
a handler that stores `Health{0}` through its one argument: the three entities
keep their positions and velocities. -/
theorem execute_frame_witness :
    (∀ (refs : List (Ref EntityTypes)) (c : Tuple EntityTypes) (t : Unit)
      (r : Ref EntityTypes), r ∉ refs →
      (store_first ⟨.Health, ⟨0⟩⟩ refs c t).1.read r = c.read r) ∧
    (((∀ T ∈ (Query.mk (.type .Health) (.tuple [.With .Position])).TData.names,
        T ∈ EntityTypes) →
      ∃ r, (Query.mk (.type .Health) (.tuple [.With .Position])).execute main_entities
        (store_first ⟨.Health, ⟨0⟩⟩) () = .ok r) ∧
    ∀ after s', (Query.mk (.type .Health) (.tuple [.With .Position])).execute main_entities
        (store_first ⟨.Health, ⟨0⟩⟩) () = .ok (after, s') →
      after.length = main_entities.length ∧
      ∀ (i : Nat) (hi : i < main_entities.length) (hi' : i < after.length),
        (matches_filters_impl (Query.mk (.type .Health) (.tuple [.With .Position])).TFilter
          (main_entities[i]).components = false → after[i] = main_entities[i]) ∧
        (∀ T, T ∉ (Query.mk (.type .Health) (.tuple [.With .Position])).TData.names →
          (after[i]).component T = (main_entities[i]).component T)) ∧
    (Query.mk (.type .Health) (.tuple [.With .Position])).execute main_entities
        (store_first ⟨.Health, ⟨0⟩⟩) () =
      .ok ([⟨(⟨F32.tenths 10, F32.tenths 20⟩, ⟨F32.tenths 1, F32.tenths 2⟩, ⟨⟩, ⟨0⟩, ())⟩,
            ⟨(⟨F32.tenths 30, F32.tenths 40⟩, ⟨F32.tenths 3, F32.tenths 4⟩, ⟨⟩, ⟨0⟩, ())⟩,
            ⟨(⟨F32.tenths 50, F32.tenths 60⟩, ⟨F32.tenths 5, F32.tenths 6⟩, ⟨⟩, ⟨0⟩, ())⟩], ()) :=
  ⟨store_first_frame ⟨.Health, ⟨0⟩⟩,
   execute_frame (Query.mk (.type .Health) (.tuple [.With .Position])) main_entities
     (store_first ⟨.Health, ⟨0⟩⟩) (store_first_frame ⟨.Health, ⟨0⟩⟩) (),
   rfl⟩



/-- C14: whether a filter parameter matches is the same for any two entities,
whatever their component values.  So on a store of `n` entities `execute` calls
the handler either `0` or `n` times, and after `execute`, whatever the handler
wrote, every slot of the store matches exactly as it did before.  With a data
descriptor of declared types `execute` does return. -/
theorem filter_ignores_component_values {σ : Type} (q : Query) (entities : List Entity)
    (lambda : Handler σ) (s : σ) :
    (∀ (Filters : Param Filter) (a b : Entity),
      matches_filters_impl Filters a.components = matches_filters_impl Filters b.components) ∧
    ((∀ T ∈ q.TData.names, T ∈ EntityTypes) →
      ∃ r, q.execute entities (traced lambda) (s, []) = .ok r) ∧
    (∀ after s' calls, q.execute entities (traced lambda) (s, []) = .ok (after, (s', calls)) →
      (calls.length = 0 ∨ calls.length = entities.length) ∧
      after.map (fun e => matches_filters_impl q.TFilter e.components) =
        entities.map (fun e => matches_filters_impl q.TFilter e.components)) := by
  refine ⟨fun _ _ _ => rfl, ?_, ?_⟩
  · intro hq
    obtain ⟨es', t', hl, _⟩ := loop_ok q hq (traced lambda) entities (s, [])
    exact ⟨(es', t'), by rw [execute_declared q hq, hl]⟩
  · intro after s' calls h
    have hq := execute_ok_declared q entities (traced lambda) (s, []) _ h
    obtain ⟨refs, hp, _⟩ := project_declared q hq
    obtain ⟨es', t', _, hlen, ht⟩ := loop_traced q refs hp lambda entities s []
    rw [execute_declared q hq, ht, List.nil_append] at h
    simp only [Except.ok.injEq, Prod.mk.injEq] at h
    obtain ⟨hafter, _, hcalls⟩ := h
    constructor
    · rw [← hcalls, List.length_map]
      cases hm : matches_filters_impl q.TFilter (declval EntityTypes) with
      | false =>
        left
        rw [List.length_eq_zero, List.filter_eq_nil_iff]
        intro e _
        rw [matches_filters_impl_congr q.TFilter e.components (declval EntityTypes), hm]
        simp
      | true =>
        right
        rw [List.filter_eq_self.mpr]
        intro e _
        rw [matches_filters_impl_congr q.TFilter e.components (declval EntityTypes), hm]
    · rw [← hafter]
      have hconst : ∀ l : List Entity,
          l.map (fun e => matches_filters_impl q.TFilter e.components) =
            List.replicate l.length (matches_filters_impl q.TFilter (declval EntityTypes)) := by
        intro l
        induction l with
        | nil => rfl
        | cons e l ih =>
          rw [List.map_cons, ih, List.length_cons, List.replicate_succ]
          rfl
      rw [hconst, hconst, hlen]

/-- C15: a query whose filter parameter is the bare filter `F` and the query whose
filter parameter is the list `{F}` are the same query: `matches_filters_impl` gives
the same boolean for every tuple, and `execute` the same result, handler calls
included, for every data descriptor, store and handler. -/
theorem bare_filter_eq_singleton_list (F : Filter) :
    (∀ (Us : List Ty) (c : Tuple Us),
      matches_filters_impl (.type F) c = matches_filters_impl (.tuple [F]) c) ∧
    (∀ (σ : Type) (TData : Param Ty) (entities : List Entity) (lambda : Handler σ) (s : σ),
      Query.execute ⟨TData, .type F⟩ entities lambda s =
        Query.execute ⟨TData, .tuple [F]⟩ entities lambda s) ∧
    (∀ (σ : Type) (TData : Param Ty) (entities : List Entity) (lambda : Handler σ) (s : σ),
      Query.execute ⟨TData, .type F⟩ entities (traced lambda) (s, []) =
        Query.execute ⟨TData, .tuple [F]⟩ entities (traced lambda) (s, [])) := by
  refine ⟨fun _ _ => rfl, ?_, ?_⟩
  · intro σ TData entities lambda s
    exact execute_congr ⟨TData, .type F⟩ ⟨TData, .tuple [F]⟩ lambda (fun _ => rfl)
      (fun _ => rfl) entities s
  · intro σ TData entities lambda s
    exact execute_congr ⟨TData, .type F⟩ ⟨TData, .tuple [F]⟩ (traced lambda) (fun _ => rfl)
      (fun _ => rfl) entities (s, [])

/-- C16: a query whose data descriptor is the bare type `T` and the query whose data
descriptor is the list `{T}` give the same result of `execute`, for every filter
parameter, store and handler: the handler is called as often, in the same order,
each time with the same single argument, which for a declared `T` refers to the
entity's component of type `T`. -/
theorem bare_type_eq_singleton_list (T : Ty) (TFilter : Param Filter) :
    (∀ (σ : Type) (entities : List Entity) (lambda : Handler σ) (s : σ),
      Query.execute ⟨.type T, TFilter⟩ entities lambda s =
        Query.execute ⟨.tuple [T], TFilter⟩ entities lambda s) ∧
    (∀ (σ : Type) (entities : List Entity) (lambda : Handler σ) (s : σ),
      Query.execute ⟨.type T, TFilter⟩ entities (traced lambda) (s, []) =
        Query.execute ⟨.tuple [T], TFilter⟩ entities (traced lambda) (s, [])) ∧
    (T ∈ EntityTypes → ∀ e : Entity, ∃ r,
      (Query.mk (.type T) TFilter).project e.components = .ok [r] ∧
      (Query.mk (.tuple [T]) TFilter).project e.components = .ok [r] ∧
      some (e.components.read r) = e.component T) := by
  refine ⟨?_, ?_, ?_⟩
  · intro σ entities lambda s
    exact execute_congr ⟨.type T, TFilter⟩ ⟨.tuple [T], TFilter⟩ lambda (fun _ => rfl)
      (fun c => project_type_eq_tuple T TFilter TFilter c) entities s
  · intro σ entities lambda s
    exact execute_congr ⟨.type T, TFilter⟩ ⟨.tuple [T], TFilter⟩ (traced lambda) (fun _ => rfl)
      (fun c => project_type_eq_tuple T TFilter TFilter c) entities (s, [])
  · intro hT e
    obtain ⟨r, hr, hread⟩ := get_component_declared e T hT
    have h1 : (Query.mk (.type T) TFilter).project e.components = .ok [r] := by
      simp only [Query.project, hr]
    exact ⟨r, h1, by rw [← project_type_eq_tuple T TFilter TFilter e.components, h1], hread⟩

/-- C17: a filter descriptor that is neither a `With<T>` nor a `Without<T>` is true
for every tuple, and a filter list that contains it matches exactly what the
list without it matches. -/
theorem other_filter_is_true (F : Filter) (hF : ∀ T, F ≠ .With T ∧ F ≠ .Without T) :
    (∀ (Us : List Ty) (c : Tuple Us), matches_filter F c = true) ∧
    (∀ (pre post : List Filter) (Us : List Ty) (c : Tuple Us),
      matches_filters_from_tuple (pre ++ F :: post) c =
        matches_filters_from_tuple (pre ++ post) c) ∧
    (∀ (Fs : List Filter) (Us : List Ty) (c : Tuple Us),
      matches_filters_from_tuple Fs c = matches_filters_from_tuple (Fs.erase F) c) := by
  have htrue : ∀ (Us : List Ty) (c : Tuple Us), matches_filter F c = true := by
    intro Us c
    have h1 : is_same F (.With F.type) = false := by
      simp only [is_same, decide_eq_false_iff_not]
      exact (hF F.type).1
    have h2 : is_same F (.Without F.type) = false := by
      simp only [is_same, decide_eq_false_iff_not]
      exact (hF F.type).2
    simp [matches_filter, h1, h2]
  have hsplit : ∀ (pre post : List Filter) (Us : List Ty) (c : Tuple Us),
      matches_filters_from_tuple (pre ++ F :: post) c =
        matches_filters_from_tuple (pre ++ post) c := by
    intro pre post Us c
    rw [matches_filters_from_tuple_eq_all, matches_filters_from_tuple_eq_all, List.all_append,
      List.all_append, List.all_cons, htrue Us c, Bool.true_and]
  refine ⟨htrue, hsplit, ?_⟩
  intro Fs Us c
  by_cases hmem : F ∈ Fs
  · obtain ⟨pre, post, heq, hnot⟩ := List.eq_append_cons_of_mem hmem
    rw [heq, List.erase_append_right _ hnot, List.erase_cons_head, hsplit]
  · rw [List.erase_of_not_mem hmem]

/-- The descriptor `Other 0` with nested type `Position`, in `{With<Position>, Other 0}`. -/
theorem other_filter_is_true_witness :
    (∀ T, Filter.Other 0 .Position ≠ .With T ∧ Filter.Other 0 .Position ≠ .Without T) ∧
    ((∀ (Us : List Ty) (c : Tuple Us), matches_filter (Filter.Other 0 .Position) c = true) ∧
    (∀ (pre post : List Filter) (Us : List Ty) (c : Tuple Us),
      matches_filters_from_tuple (pre ++ Filter.Other 0 .Position :: post) c =
        matches_filters_from_tuple (pre ++ post) c) ∧
    (∀ (Fs : List Filter) (Us : List Ty) (c : Tuple Us),
      matches_filters_from_tuple Fs c =
        matches_filters_from_tuple (Fs.erase (Filter.Other 0 .Position)) c)) ∧
    matches_filters_from_tuple [.With .Position, .Other 0 .Position] e1.components = true ∧
    matches_filters_from_tuple [.Without .Position, .Other 0 .Position] e1.components = false :=
  ⟨fun _ => ⟨by simp, by simp⟩,
   other_filter_is_true (.Other 0 .Position) (fun _ => ⟨by simp, by simp⟩), rfl, rfl⟩

/-- C18 fails on the code: `main` binds the filter `{With<Position>}`, not the
`With<Position> and Without<Npc>` its comment announces.  On the store of `main`
the query of `main` prints three lines, for `e1`, `e2` and `e3`; the query with
the announced filter prints none, every entity holding an `Npc`. -/
theorem main_filter_is_not_the_announced_one :
    main_TFilter ≠ main_comment_TFilter ∧
    main_query.execute main_entities main_lambda [] =
      .ok (main_entities,
        [(F32.tenths 10, F32.tenths 20, F32.tenths 1, F32.tenths 2),
         (F32.tenths 30, F32.tenths 40, F32.tenths 3, F32.tenths 4),
         (F32.tenths 50, F32.tenths 60, F32.tenths 5, F32.tenths 6)]) ∧
    (Query.mk main_TData main_comment_TFilter).execute main_entities main_lambda [] =
      .ok (main_entities, []) ∧
    main_query.execute main_entities main_lambda [] ≠
      (Query.mk main_TData main_comment_TFilter).execute main_entities main_lambda [] :=
  ⟨by decide, rfl, rfl, by
    intro h
    have h2 := congrArg (fun r => r.toOption.map (fun p => p.2.length)) h
    exact absurd h2 (by decide)⟩


end Ecs
